import Mathlib

/-!
Verification development for the `reaper-regions` WAV marker parser.

The Rust sources are embedded shallowly:

* `src/src/lib.rs` — the marker parsing library (`parse_markers_from_file`,
  `get_sample_rate`, `parse_labels`, `parse_list_chunk_for_labels`,
  `parse_sampler_data`, `parse_cue_points`, `match_markers`, `Marker::new`,
  `WavData::set_reason`, the `Reason` and `ParseError` enums);
* `src/tools/strip/src/main.rs` — the container rewriter (`strip_audio_data`).

The `wavtag` module (the RIFF chunk walker and the sampler sub-decoder) is not
part of the provided sources; the container data model (`ChunkType`,
`RiffChunk`, `RiffFile`, `SampleLoop`, `find_chunk_by_type`, the walker and
the on-disk chunk layout) is modelled from the spec, and the sampler
sub-decoder is kept abstract: the parsing pipeline is parameterised by it.

Modelling conventions:

* bytes are `Nat` values (file bytes are < 256, but nothing below needs that
  bound); multi-byte integers are decoded little-endian exactly where the
  Rust code calls `u32::from_le_bytes`;
* Rust `String`s produced by lossy UTF-8 decoding followed by trimming of
  trailing NUL characters are modelled as the underlying byte sequences with
  trailing zero bytes trimmed — no claim depends on the UTF-8 decoding itself;
* `f64` time arithmetic in `Marker::new` is modelled with exact rationals:
  the code performs one division per offset and one subtraction, and the
  claims are about the structure of that computation (no clamping, negative
  results preserved), not about rounding;
* `HashMap<u32, _>` values are modelled as association lists whose `insert`
  removes any previous binding of the key and appends the new one
  (last-writer-wins, the observable behaviour of `HashMap::insert`);
  the unspecified iteration order of a `HashMap` is exposed where it is
  observable (`match_markers_seq` below takes the iteration sequence as an
  explicit argument);
* loops whose cursor advances by a computed amount are written with an
  explicit fuel argument equal to the buffer length, which strictly bounds
  the number of iterations (each iteration consumes at least 8 bytes).
-/

/-- Raw byte sequences (payloads, tags, names). -/
abbrev Bytes := List Nat

/-- Little-endian decoding of a (4-)byte subBytes, as `u32::from_le_bytes`. -/
def u32le (bs : Bytes) : Nat :=
  bs.foldr (fun b acc => b + 256 * acc) 0

/-- Little-endian encoding of a 32-bit value, as `u32::to_le_bytes`. -/
def le32 (n : Nat) : Bytes :=
  [n % 256, n / 256 % 256, n / 65536 % 256, n / 16777216 % 256]

/-- The subBytes `l[off..off+len]` (clamped at the end, exactly like the Rust
slices at the call sites below, all of which are bounds-checked first). -/
def subBytes (l : Bytes) (off len : Nat) : Bytes :=
  (l.drop off).take len

/-- Trailing-zero-byte trimming, modelling `trim_end_matches` of the NUL
character on the lossily decoded string. -/
def trimNulls (bs : Bytes) : Bytes :=
  (bs.reverse.dropWhile (fun b => b == 0)).reverse

def riffTag : Bytes := [82, 73, 70, 70]
def waveTag : Bytes := [87, 65, 86, 69]
def fmtTag : Bytes := [102, 109, 116, 32]
def cueTag : Bytes := [99, 117, 101, 32]
def lablTag : Bytes := [108, 97, 98, 108]
def smplTag : Bytes := [115, 109, 112, 108]
def listTag : Bytes := [76, 73, 83, 84]
def dataTag : Bytes := [100, 97, 116, 97]
def adtlTag : Bytes := [97, 100, 116, 108]

/-- Modelled from the spec: the chunk tag, "semantically one of a closed set:
format, cue-point table, label, sampler, list, data, or \"other\"/unknown".
Unknown tags are "retained (tagged \"other\") rather than dropped, since the
Rewriter must round-trip them byte-for-byte", so `Other` carries the tag. -/
inductive ChunkType where
  | Format
  | Cue
  | Label
  | Sampler
  | List
  | Data
  | Other (tag : Bytes)
deriving DecidableEq, Repr

/-- Modelled from the spec: the 4-byte tag re-emitted by the rewriter for a
chunk type (`chunk.header.to_tag()` in `strip_audio_data`). -/
def ChunkType.to_tag : ChunkType → Bytes
  | .Format => fmtTag
  | .Cue => cueTag
  | .Label => lablTag
  | .Sampler => smplTag
  | .List => listTag
  | .Data => dataTag
  | .Other tag => tag

/-- Modelled from the spec: a chunk is "a 4-byte ASCII tag ... plus its raw
byte payload" (`wavtag::RiffChunk` with fields `header` and `data`). -/
structure RiffChunk where
  header : ChunkType
  data : Bytes
deriving DecidableEq, Repr

/-- Modelled from the spec: the chunk walker's output, "an immutable ordered
sequence" of chunks (`wavtag::RiffFile`, field `chunks`). -/
structure RiffFile where
  chunks : List RiffChunk
deriving DecidableEq, Repr

/-- Modelled from the spec: "locate the single format chunk" — the first
chunk of the given type (`RiffFile::find_chunk_by_type`). -/
def find_chunk_by_type (f : RiffFile) (t : ChunkType) : Option RiffChunk :=
  f.chunks.find? (fun c => c.header == t)

/-- Modelled from the spec: "SampleLoop: identifier, end sample offset".
The Rust field `end` is a Lean keyword and is rendered `end_`. -/
structure SampleLoop where
  id : Nat
  end_ : Nat
deriving DecidableEq, Repr

/-- The `Reason` enum of `lib.rs`. -/
inductive Reason where
  | NoLabels
  | NoSamplerData
  | NoCuePoints
  | NoMarkersMatched
deriving DecidableEq, Repr

/-- `strum::EnumMessage::get_documentation`: the doc comment attached to each
`Reason` variant in `lib.rs`. -/
def Reason.get_documentation : Reason → Option String
  | .NoLabels => some "No label chunks were found in the file"
  | .NoSamplerData => some "No \x27smpl\x27 (sampler) chunk was found in the file"
  | .NoCuePoints => some "Labels and/or sampler data found but no \x27cue \x27 chunk"
  | .NoMarkersMatched => some "Metadata exists but couldn\x27t be matched into markers"

/-- The `ParseError` enum of `lib.rs` (the `Io` payload is elided: no file
system in the embedding). -/
inductive ParseError where
  | Io
  | NoWaveTag
  | NoRiffTag
  | MissingFormatChunk
  | InvalidFormatChunk (len : Nat)
  | BytesToLe (step : String)
  | Other (msg : String)
deriving DecidableEq, Repr

/-- The `MarkerType` enum of `lib.rs`. -/
inductive MarkerType where
  | Marker
  | Region
deriving DecidableEq, Repr

/-- The `Marker` struct of `lib.rs`. Names are byte sequences (see the
conventions above), times are exact rationals, the Rust field `end` is
rendered `end_`. -/
structure Marker where
  id : Nat
  name : Bytes
  type : MarkerType
  start : Nat
  end_ : Option Nat
  start_time : ℚ
  end_time : Option ℚ
  duration : Option ℚ
deriving DecidableEq, Repr

/-- `Marker::new` of `lib.rs`: the variant tag is `Region` exactly when an
end offset is present, and the time fields are derived by division by the
sample rate, the duration by subtraction. -/
def Marker.new (id : Nat) (name : Bytes) (start : Nat) (end_ : Option Nat)
    (sample_rate : Nat) : Marker :=
  let marker_type := if end_.isSome then MarkerType.Region else MarkerType.Marker
  let start_time : ℚ := (start : ℚ) / (sample_rate : ℚ)
  match end_ with
  | some e =>
    let end_s : ℚ := (e : ℚ) / (sample_rate : ℚ)
    let dur_s : ℚ := end_s - start_time
    { id := id, name := name, type := marker_type, start := start,
      end_ := some e, start_time := start_time, end_time := some end_s,
      duration := some dur_s }
  | none =>
    { id := id, name := name, type := marker_type, start := start,
      end_ := none, start_time := start_time, end_time := none,
      duration := none }

/-- The `WavData` struct of `lib.rs`. -/
structure WavData where
  path : String
  sample_rate : Nat
  markers : List Marker
  reason : Option Reason
  reason_text : Option String
deriving DecidableEq, Repr

/-- `WavData::default()` (all fields empty). -/
def WavData.default : WavData :=
  { path := "", sample_rate := 0, markers := [], reason := none, reason_text := none }

/-- `WavData::set_reason` of `lib.rs`: stores the reason and its
documentation string. -/
def WavData.set_reason (w : WavData) (r : Reason) : WavData :=
  { w with reason := some r, reason_text := r.get_documentation }

/-- `get_sample_rate` of `lib.rs`: the little-endian `u32` at bytes 4..8 of
the format chunk payload. -/
def get_sample_rate (f : RiffFile) : Except ParseError Nat :=
  match find_chunk_by_type f ChunkType.Format with
  | none => .error ParseError.MissingFormatChunk
  | some c =>
    if c.data.length < 8 then .error (ParseError.InvalidFormatChunk c.data.length)
    else .ok (u32le (subBytes c.data 4 4))

/-- The internal `Label` struct of `lib.rs` (`cue_id`, `name`). -/
structure Label where
  cue_id : Nat
  name : Bytes
deriving DecidableEq, Repr

/-- `HashMap::insert`, observationally: any previous binding of the key is
removed and the new binding added (modelled by appending it). -/
def hmInsert {β : Type} (m : List (Nat × β)) (k : Nat) (v : β) : List (Nat × β) :=
  m.filter (fun p => p.1 != k) ++ [(k, v)]

/-- The map obtained by inserting a sequence of key-value pairs into an empty
`HashMap` (so `collect` on an iterator of pairs, or an insertion loop). -/
def hmFromList {β : Type} (ps : List (Nat × β)) : List (Nat × β) :=
  ps.foldl (fun m p => hmInsert m p.1 p.2) []

/-- `parse_labels` of `lib.rs`: standalone label chunks take precedence; the
LIST chunk is consulted only when no chunk is tagged as a label chunk at all
(the flag is set before the payload length is checked). An error from
`parse_list_chunk_for_labels` is ignored by the Rust code (`if let Ok`), and
that function in fact never fails (every `try_into` is on a bounds-checked
4-byte slice), so the LIST branch is modelled as pure. -/
def parse_list_labels_loop (data : Bytes) : Nat → Nat → List Label
  | 0, _ => []
  | fuel + 1, pos =>
    if pos + 8 ≤ data.length then
      let sub_id := subBytes data pos 4
      let sub_size := u32le (subBytes data (pos + 4) 4)
      if pos + 8 + sub_size > data.length then []
      else
        let rest := parse_list_labels_loop data fuel (pos + 8 + (sub_size + sub_size % 2))
        if sub_id = lablTag ∧ 4 ≤ sub_size then
          { cue_id := u32le (subBytes data (pos + 8) 4),
            name := trimNulls (subBytes data (pos + 12) (sub_size - 4)) } :: rest
        else rest
    else []

/-- `parse_list_chunk_for_labels` of `lib.rs`: the payload must begin with
the `adtl` tag; sub-records are walked with even-padded advancing, and a
declared size overrunning the remaining bytes stops the walk. The fuel
`data.length` strictly bounds the iteration count: every step advances the
cursor by at least 8. -/
def parse_list_chunk_for_labels (list_chunk : RiffChunk) : List Label :=
  let data := list_chunk.data
  if data.length < 4 ∨ subBytes data 0 4 ≠ adtlTag then []
  else parse_list_labels_loop data data.length 4

def parse_labels (f : RiffFile) : List Label :=
  let standalone := f.chunks.filter (fun c => c.header == ChunkType.Label)
  if standalone.isEmpty then
    match find_chunk_by_type f ChunkType.List with
    | some list_chunk => parse_list_chunk_for_labels list_chunk
    | none => []
  else
    (standalone.filter (fun c => 4 ≤ c.data.length)).map (fun c =>
      { cue_id := u32le (subBytes c.data 0 4),
        name := trimNulls (c.data.drop 4) })

/-- The type of the sampler sub-decoder (`wavtag::SamplerChunk::from_chunk`
followed by projection to `sample_loops`). Its binary layout is explicitly
an implementation detail the spec does not restate, so the pipeline is
parameterised by an arbitrary decoder of this type. -/
abbrev SamplerDecoder := RiffChunk → Except ParseError (List SampleLoop)

/-- `parse_sampler_data` of `lib.rs`: absent sampler chunk yields `none`
(not an error); a present chunk is delegated to the sub-decoder. -/
def parse_sampler_data (dec : SamplerDecoder) (f : RiffFile) :
    Except ParseError (Option (List SampleLoop)) :=
  match find_chunk_by_type f ChunkType.Sampler with
  | some smpl_chunk => (dec smpl_chunk).map some
  | none => .ok none

/-- `parse_cue_points` of `lib.rs`: absent chunk or payload shorter than 4
bytes yields `Ok(None)`; otherwise the declared record count is read and
every complete 24-byte record (identifier at record offset 0, sample offset
at record offset 20) is inserted; records overrunning the payload are
skipped silently. -/
def parse_cue_points (f : RiffFile) : Except ParseError (Option (List (Nat × Nat))) :=
  match find_chunk_by_type f ChunkType.Cue with
  | none => .ok none
  | some cue_chunk =>
    let data := cue_chunk.data
    if data.length < 4 then .ok none
    else
      let num_cues := u32le (subBytes data 0 4)
      .ok (some ((List.range num_cues).foldl (fun m i =>
        let start := 4 + i * 24
        if start + 24 ≤ data.length then
          hmInsert m (u32le (subBytes data start 4)) (u32le (subBytes data (start + 20) 4))
        else m) []))

/-- Marker ordering used by `match_markers` (`sort_by_key(|m| m.start)`). -/
def markerLE (a b : Marker) : Prop := a.start ≤ b.start

instance : DecidableRel markerLE := fun a b => Nat.decLe a.start b.start

instance : IsTotal Marker markerLE := ⟨fun a b => Nat.le_total a.start b.start⟩

instance : IsTrans Marker markerLE := ⟨fun _ _ _ h1 h2 => Nat.le_trans h1 h2⟩

/-- The body of `match_markers` from the label map onwards, with the
iteration sequence of the label `HashMap` made explicit: Rust iterates a
freshly built, randomly seeded `HashMap`, whose order over its entries is
unspecified. `sort_by_key` is a stable sort, modelled by insertion sort. -/
def match_markers_seq (label_seq : List (Nat × Bytes))
    (sampler_map : List (Nat × Nat)) (cue_points : List (Nat × Nat))
    (sample_rate : Nat) : List Marker :=
  let markers := label_seq.map (fun p =>
    Marker.new p.1 p.2 ((cue_points.lookup p.1).getD 0) (sampler_map.lookup p.1) sample_rate)
  List.insertionSort markerLE markers

/-- `match_markers` of `lib.rs`, with the canonical iteration order given by
the association-list model of the label map (first-insertion order of the
surviving keys). -/
def match_markers (labels : List Label) (sampler_loops : Option (List SampleLoop))
    (cue_points : List (Nat × Nat)) (sample_rate : Nat) : List Marker :=
  let label_map := hmFromList (labels.map (fun label => (label.cue_id, label.name)))
  let sampler_map := hmFromList ((sampler_loops.getD []).map (fun sl => (sl.id, sl.end_)))
  match_markers_seq label_map sampler_map cue_points sample_rate

/-- `parse_markers_from_file` of `lib.rs`, from the chunk-walker output
onwards (file opening and the walker itself precede the embedded logic; the
walker output is the `RiffFile` argument). -/
def parse_markers (dec : SamplerDecoder) (file_path : String) (riff_file : RiffFile) :
    Except ParseError WavData :=
  match get_sample_rate riff_file with
  | .error e => .error e
  | .ok sample_rate =>
    let labels := parse_labels riff_file
    match parse_sampler_data dec riff_file with
    | .error e => .error e
    | .ok sampler_data =>
      let base : WavData :=
        { WavData.default with path := file_path, sample_rate := sample_rate }
      let result :=
        if sampler_data.isNone then base.set_reason Reason.NoSamplerData else base
      match parse_cue_points riff_file with
      | .error e => .error e
      | .ok none => .ok (result.set_reason Reason.NoCuePoints)
      | .ok (some cue_points) =>
        .ok { result with markers := match_markers labels sampler_data cue_points sample_rate }

/-- The per-chunk emission of `strip_audio_data` in
`src/tools/strip/src/main.rs`: the data chunk is re-emitted with declared
size zero and no payload; every other chunk is copied with its tag, its
original declared size and its payload. -/
def emitStrip (c : RiffChunk) : Bytes :=
  if c.header == ChunkType.Data then dataTag ++ le32 0
  else c.header.to_tag ++ le32 c.data.length ++ c.data

/-- `strip_audio_data` of `src/tools/strip/src/main.rs`, from the walker
output to the output byte buffer: RIFF/WAVE header with a placeholder size,
every chunk in order via `emitStrip`, then the RIFF size field patched to
the total length minus 8. -/
def strip_audio_data (chunks : List RiffChunk) : Bytes :=
  let out := riffTag ++ le32 0 ++ waveTag ++ (chunks.map emitStrip).flatten
  out.take 4 ++ le32 (out.length - 8) ++ out.drop 8

/-- Modelled from the spec: the on-disk serialization of one chunk — tag,
declared size (little-endian), payload, and one pad byte if the declared
size is odd. -/
def chunkOnDisk (c : RiffChunk) : Bytes :=
  c.header.to_tag ++ le32 c.data.length ++ c.data ++
    (if c.data.length % 2 = 1 then [0] else [])

/-- Modelled from the spec: an entire container on disk — RIFF tag, declared
total size (advisory, an arbitrary field of the file), WAVE tag, then every
chunk serialized in order. -/
def containerBytes (declared_size : Nat) (chunks : List RiffChunk) : Bytes :=
  riffTag ++ le32 declared_size ++ waveTag ++ (chunks.map chunkOnDisk).flatten

/-- Modelled from the spec: the tag-to-chunk-type classification of the
walker. -/
def tagToChunkType (t : Bytes) : ChunkType :=
  if t = fmtTag then .Format
  else if t = cueTag then .Cue
  else if t = lablTag then .Label
  else if t = smplTag then .Sampler
  else if t = listTag then .List
  else if t = dataTag then .Data
  else .Other t

/-- Modelled from the spec: the chunk iteration of the walker — read tag and
declared size, fail fatally when the declared size reads past the available
bytes, otherwise take the payload and skip one pad byte after an odd size;
iteration stops at end of stream. The fuel `bytes.length` strictly bounds
the iteration count: every step consumes at least 8 bytes. -/
def walkChunks : Nat → Bytes → Except ParseError (List RiffChunk)
  | 0, _ => .ok []
  | fuel + 1, bytes =>
    if bytes.length < 8 then .ok []
    else
      let tag := subBytes bytes 0 4
      let size := u32le (subBytes bytes 4 4)
      if bytes.length - 8 < size then .error (ParseError.Other "chunk size past end of data")
      else
        match walkChunks fuel (bytes.drop (8 + size + size % 2)) with
        | .ok rest => .ok ({ header := tagToChunkType tag, data := subBytes bytes 8 size } :: rest)
        | .error e => .error e

/-- Modelled from the spec: the chunk walker — verify the RIFF group tag,
skip the advisory total size, verify the WAVE form tag, then iterate over
the chunks. -/
def parseRiff (bytes : Bytes) : Except ParseError (List RiffChunk) :=
  if subBytes bytes 0 4 ≠ riffTag then .error ParseError.NoRiffTag
  else if subBytes bytes 8 4 ≠ waveTag then .error ParseError.NoWaveTag
  else walkChunks bytes.length (bytes.drop 12)

/-- A trivial sampler sub-decoder (always succeeds with no loops), used to
instantiate the decoder parameter on concrete inputs whose sampler chunk is
absent (the decoder is then never consulted). -/
def trivialDecoder : SamplerDecoder := fun _ => .ok []

/-- A format chunk declaring sample rate 44100 (bytes 4..8 little-endian). -/
def fmtChunk44100 : RiffChunk := ⟨ChunkType.Format, [1, 0, 2, 0, 68, 172, 0, 0]⟩

/-- A cue chunk with one record: identifier 1, sample offset 44100. -/
def cueChunk1 : RiffChunk :=
  ⟨ChunkType.Cue, [1, 0, 0, 0] ++ [1, 0, 0, 0] ++ List.replicate 16 0 ++ [68, 172, 0, 0]⟩

/-- A standalone label chunk: identifier 1, name "Chorus". -/
def lablChunk1 : RiffChunk :=
  ⟨ChunkType.Label, [1, 0, 0, 0, 67, 104, 111, 114, 117, 115]⟩

/-- A file with format, cue and label chunks but no sampler chunk. -/
def exF1 : RiffFile := ⟨[fmtChunk44100, cueChunk1, lablChunk1]⟩

/-- A file with format and label chunks but neither sampler nor cue chunk. -/
def exF2 : RiffFile := ⟨[fmtChunk44100, lablChunk1]⟩

/-- The parse result of `exF1` (no sampler chunk; cue and label present):
reason `NoSamplerData`, yet one matched marker. -/
def exWd1 : WavData :=
  { path := "", sample_rate := 44100,
    markers := [Marker.new 1 [67, 104, 111, 114, 117, 115] 44100 none 44100],
    reason := some Reason.NoSamplerData,
    reason_text := Reason.get_documentation Reason.NoSamplerData }

/-- A cue chunk whose payload is shorter than 4 bytes. -/
def cueChunkShort : RiffChunk := ⟨ChunkType.Cue, [1, 0]⟩

/-- A file with a format chunk, a too-short cue chunk and a label chunk. -/
def exF3 : RiffFile := ⟨[fmtChunk44100, cueChunkShort, lablChunk1]⟩

/-- The parse result of `exF3`: reason `NoCuePoints`, no markers. -/
def exWd3 : WavData :=
  { path := "", sample_rate := 44100, markers := [],
    reason := some Reason.NoCuePoints,
    reason_text := Reason.get_documentation Reason.NoCuePoints }

/-- Replaces the payload of LIST-tagged chunks by the empty payload, keeping
every other chunk intact: two chunk lists with the same image under this map
differ at most in the payloads of their LIST chunks. -/
def maskList (c : RiffChunk) : RiffChunk :=
  if c.header == ChunkType.List then { c with data := [] } else c

/-- A LIST-adtl chunk containing one list-style label sub-record for
identifier 9 with name bytes "ABCD". -/
def listChunkA : RiffChunk :=
  ⟨ChunkType.List, adtlTag ++ lablTag ++ [8, 0, 0, 0] ++ [9, 0, 0, 0] ++ [65, 66, 67, 68]⟩

/-- The same file shape with the LIST payload emptied. -/
def listChunkEmpty : RiffChunk := ⟨ChunkType.List, []⟩

/-- The in-range cue records of a cue chunk payload: for each declared
record index whose full 24-byte range fits in the payload, the pair of the
identifier at record offset 0 and the sample offset at record offset 20. -/
def cueRecords (c : RiffChunk) : List (Nat × Nat) :=
  ((List.range (u32le (subBytes c.data 0 4))).filter
      (fun i => decide (4 + i * 24 + 24 ≤ c.data.length))).map
    (fun i => (u32le (subBytes c.data (4 + i * 24) 4),
               u32le (subBytes c.data (4 + i * 24 + 20) 4)))

theorem lookup_append {β : Type} (l1 l2 : List (Nat × β)) (j : Nat) :
    (l1 ++ l2).lookup j
      = match l1.lookup j with
        | some v => some v
        | none => l2.lookup j := by
  induction l1 with
  | nil => rfl
  | cons a t ih =>
    by_cases h : j = a.1
    · simp [List.lookup, h]
    · simp only [List.cons_append, List.lookup, beq_eq_false_iff_ne.mpr h]
      exact ih

theorem lookup_filter_ne {β : Type} (m : List (Nat × β)) (k j : Nat) (h : j ≠ k) :
    (m.filter (fun p => p.1 != k)).lookup j = m.lookup j := by
  induction m with
  | nil => rfl
  | cons a t ih =>
    by_cases hak : a.1 = k
    · have : (a.1 != k) = false := by simp [hak]
      have hj : (j == a.1) = false := by simp [hak, h]
      simp [List.filter_cons, this, List.lookup, hj, ih]
    · have : (a.1 != k) = true := by simp [hak]
      by_cases hja : j = a.1
      · simp [List.filter_cons, this, List.lookup, hja]
      · simp [List.filter_cons, this, List.lookup, beq_eq_false_iff_ne.mpr hja, ih]

theorem lookup_filter_self {β : Type} (m : List (Nat × β)) (k : Nat) :
    (m.filter (fun p => p.1 != k)).lookup k = none := by
  induction m with
  | nil => rfl
  | cons a t ih =>
    by_cases hak : a.1 = k
    · simp [List.filter_cons, hak, ih]
    · have h1 : (a.1 != k) = true := by simp [hak]
      have h2 : (k == a.1) = false := by simp; exact fun h => hak h.symm
      simp [List.filter_cons, h1, List.lookup, h2, ih]

theorem hmInsert_lookup {β : Type} (m : List (Nat × β)) (k : Nat) (v : β) (j : Nat) :
    (hmInsert m k v).lookup j = if j = k then some v else m.lookup j := by
  unfold hmInsert
  rw [lookup_append]
  by_cases h : j = k
  · simp [lookup_filter_self, h, List.lookup]
  · simp [lookup_filter_ne m k j h, List.lookup]
    cases m.lookup j <;> simp [List.lookup, beq_eq_false_iff_ne.mpr h, h]

theorem foldl_hmInsert_lookup {β : Type} (ps : List (Nat × β)) (m : List (Nat × β)) (j : Nat) :
    ((ps.foldl (fun m p => hmInsert m p.1 p.2) m).lookup j)
      = match ps.reverse.find? (fun p => p.1 == j) with
        | some p => some p.2
        | none => m.lookup j := by
  induction ps generalizing m with
  | nil => rfl
  | cons p t ih =>
    simp only [List.foldl_cons, List.reverse_cons, List.find?_append]
    rw [ih]
    cases t.reverse.find? (fun p => p.1 == j) with
    | some q => rfl
    | none =>
      simp only [Option.none_orElse]
      rw [hmInsert_lookup]
      by_cases h : j = p.1
      · simp [List.find?, h]
      · have : (p.1 == j) = false := by simp; exact fun hh => h hh.symm
        simp [List.find?, this, h]

theorem hmFromList_lookup {β : Type} (ps : List (Nat × β)) (j : Nat) :
    (hmFromList ps).lookup j = (ps.reverse.find? (fun p => p.1 == j)).map Prod.snd := by
  unfold hmFromList
  rw [foldl_hmInsert_lookup]
  cases ps.reverse.find? (fun p => p.1 == j) <;> rfl

theorem hmInsert_keys_nodup {β : Type} (m : List (Nat × β)) (k : Nat) (v : β)
    (h : (m.map Prod.fst).Nodup) : ((hmInsert m k v).map Prod.fst).Nodup := by
  unfold hmInsert
  rw [List.map_append, List.nodup_append]
  refine ⟨?_, by simp, ?_⟩
  · exact h.sublist (List.Sublist.map Prod.fst (List.filter_sublist m))
  · intro a ha hb
    simp at hb
    subst hb
    obtain ⟨p, hp, hpk⟩ := List.mem_map.mp ha
    have := List.mem_filter.mp hp
    simp [hpk] at this

theorem hmFromList_keys_nodup_aux {β : Type} (ps : List (Nat × β)) (m : List (Nat × β))
    (h : (m.map Prod.fst).Nodup) :
    (((ps.foldl (fun m p => hmInsert m p.1 p.2) m)).map Prod.fst).Nodup := by
  induction ps generalizing m with
  | nil => exact h
  | cons p t ih => exact ih _ (hmInsert_keys_nodup m p.1 p.2 h)

theorem hmFromList_keys_nodup {β : Type} (ps : List (Nat × β)) :
    ((hmFromList ps).map Prod.fst).Nodup :=
  hmFromList_keys_nodup_aux ps [] (by simp)

theorem lookup_of_mem_nodup {β : Type} (m : List (Nat × β)) (p : Nat × β)
    (hnd : (m.map Prod.fst).Nodup) (hmem : p ∈ m) : m.lookup p.1 = some p.2 := by
  induction m with
  | nil => cases hmem
  | cons a t ih =>
    rcases List.mem_cons.mp hmem with h | h
    · subst h; simp [List.lookup]
    · have hne : p.1 ≠ a.1 := by
        intro he
        have : a.1 ∈ t.map Prod.fst := he ▸ List.mem_map.mpr ⟨p, h, rfl⟩
        exact (List.nodup_cons.mp hnd).1 this
      simp only [List.lookup, beq_eq_false_iff_ne.mpr hne]
      exact ih (List.nodup_cons.mp hnd).2 h

theorem countP_keys {β : Type} (m : List (Nat × β)) (hnd : (m.map Prod.fst).Nodup) (j : Nat) :
    m.countP (fun p => p.1 == j) = if (m.lookup j).isSome then 1 else 0 := by
  induction m with
  | nil => rfl
  | cons a t ih =>
    rw [List.countP_cons]
    by_cases h : a.1 = j
    · have ht : t.countP (fun p => p.1 == j) = 0 := by
        rw [List.countP_eq_zero]
        intro p hp
        simp only [beq_iff_eq]
        intro hpj
        exact (List.nodup_cons.mp hnd).1 (h ▸ hpj ▸ List.mem_map.mpr ⟨p, hp, rfl⟩)
      simp [List.lookup, h, ht]
    · have hj : (j == a.1) = false := by simp; exact fun hh => h hh.symm
      simp only [List.lookup, hj, beq_iff_eq, h]
      rw [ih (List.nodup_cons.mp hnd).2]
      simp

theorem filter_ne_key_eq_self {β : Type} (m : List (Nat × β)) (k : Nat)
    (h : k ∉ m.map Prod.fst) : m.filter (fun p => p.1 != k) = m := by
  rw [List.filter_eq_self]
  intro p hp
  simp only [bne_iff_ne, ne_eq]
  intro he
  exact h (he ▸ List.mem_map.mpr ⟨p, hp, rfl⟩)

theorem foldl_hmInsert_length {β : Type} (ps : List (Nat × β)) (m : List (Nat × β))
    (hdisj : ∀ p ∈ ps, p.1 ∉ m.map Prod.fst) (hnd : (ps.map Prod.fst).Nodup) :
    (ps.foldl (fun m p => hmInsert m p.1 p.2) m).length = m.length + ps.length := by
  induction ps generalizing m with
  | nil => rfl
  | cons p t ih =>
    have hfst : p.1 ∉ m.map Prod.fst := hdisj p (List.mem_cons_self p t)
    have hins : hmInsert m p.1 p.2 = m ++ [(p.1, p.2)] := by
      unfold hmInsert
      rw [filter_ne_key_eq_self m p.1 hfst]
    rw [List.foldl_cons, hins, ih (m ++ [(p.1, p.2)]) ?_ (List.nodup_cons.mp hnd).2]
    · simp [Nat.add_assoc, Nat.add_comm 1 t.length]
    · intro q hq
      rw [List.map_append, List.mem_append]
      rintro (hm | hs)
      · exact hdisj q (List.mem_cons_of_mem p hq) hm
      · simp at hs
        exact (List.nodup_cons.mp hnd).1 (hs ▸ List.mem_map.mpr ⟨q, hq, rfl⟩)

theorem hmFromList_length_of_nodup {β : Type} (ps : List (Nat × β))
    (hnd : (ps.map Prod.fst).Nodup) : (hmFromList ps).length = ps.length := by
  unfold hmFromList
  rw [foldl_hmInsert_length ps [] (by simp) hnd]
  simp

theorem foldl_if_insert {β : Type} (l : List Nat) (m : List (Nat × β))
    (P : Nat → Prop) [DecidablePred P] (k : Nat → Nat) (v : Nat → β) :
    l.foldl (fun m i => if P i then hmInsert m (k i) (v i) else m) m
      = ((l.filter (fun i => decide (P i))).map (fun i => (k i, v i))).foldl
          (fun m p => hmInsert m p.1 p.2) m := by
  induction l generalizing m with
  | nil => rfl
  | cons i t ih =>
    by_cases h : P i
    · simp [List.filter_cons, h, ih]
    · simp [List.filter_cons, h, ih]

theorem Marker.new_id (i : Nat) (n : Bytes) (s : Nat) (e : Option Nat) (r : Nat) :
    (Marker.new i n s e r).id = i := by cases e <;> rfl

theorem Marker.new_name (i : Nat) (n : Bytes) (s : Nat) (e : Option Nat) (r : Nat) :
    (Marker.new i n s e r).name = n := by cases e <;> rfl

theorem Marker.new_start (i : Nat) (n : Bytes) (s : Nat) (e : Option Nat) (r : Nat) :
    (Marker.new i n s e r).start = s := by cases e <;> rfl

/-- C2: a `Marker` built by `Marker::new` is tagged `Region` exactly when the
end offset is present and `Marker` when it is absent; with a present end
offset `e`, `end_time` is `e` divided by the sample rate and `duration` is
`end_time` minus `start_time` as an exact subtraction with no clamping, so
an inverted region (`e < start`, positive sample rate) has a strictly
negative duration, which is preserved. -/
theorem marker_new_region_duration (id : Nat) (name : Bytes) (start e rate : Nat) :
    (Marker.new id name start (some e) rate).type = MarkerType.Region ∧
    (Marker.new id name start none rate).type = MarkerType.Marker ∧
    (Marker.new id name start (some e) rate).end_time = some ((e : ℚ) / (rate : ℚ)) ∧
    (Marker.new id name start (some e) rate).duration
      = some (((e : ℚ) / (rate : ℚ)) - ((start : ℚ) / (rate : ℚ))) ∧
    (Marker.new id name start (some e) rate).duration
      = some ((Marker.new id name start (some e) rate).end_time.getD 0
              - (Marker.new id name start (some e) rate).start_time) ∧
    (0 < rate → e < start →
      ∃ d, (Marker.new id name start (some e) rate).duration = some d ∧ d < 0) := by
  refine ⟨rfl, rfl, rfl, rfl, rfl, ?_⟩
  intro hr hlt
  refine ⟨_, rfl, ?_⟩
  have hc : (0 : ℚ) < (rate : ℚ) := by exact_mod_cast hr
  have he : (e : ℚ) < (start : ℚ) := by exact_mod_cast hlt
  rw [sub_neg]
  exact (div_lt_div_iff_of_pos_right hc).mpr he

/-- C2 witness: `Marker::new` with id 0, start 2, end 1, sample rate 1 — a
Region with end time 1 and duration 1 − 2 = −1, strictly negative. -/
theorem marker_new_region_duration_witness :
    (0 : Nat) < 1 ∧ (1 : Nat) < 2 ∧
    ((Marker.new 0 [] 2 (some 1) 1).type = MarkerType.Region ∧
     (Marker.new 0 [] 2 none 1).type = MarkerType.Marker ∧
     (Marker.new 0 [] 2 (some 1) 1).end_time = some ((1 : ℚ) / (1 : ℚ)) ∧
     (Marker.new 0 [] 2 (some 1) 1).duration
       = some (((1 : ℚ) / (1 : ℚ)) - ((2 : ℚ) / (1 : ℚ))) ∧
     (Marker.new 0 [] 2 (some 1) 1).duration
       = some ((Marker.new 0 [] 2 (some 1) 1).end_time.getD 0
               - (Marker.new 0 [] 2 (some 1) 1).start_time) ∧
     (0 < 1 → 1 < 2 → ∃ d, (Marker.new 0 [] 2 (some 1) 1).duration = some d ∧ d < 0)) :=
  ⟨by decide, by decide, marker_new_region_duration 0 [] 2 1 1⟩

/-- C8: `get_sample_rate` fails with `MissingFormatChunk` when no format
chunk exists, fails with `InvalidFormatChunk` carrying the payload length
when the format chunk payload is shorter than 8 bytes, and otherwise
returns the little-endian 32-bit integer at payload bytes 4..8, ignoring
bytes 0..4. -/
theorem get_sample_rate_spec (f : RiffFile) :
    (find_chunk_by_type f ChunkType.Format = none →
       get_sample_rate f = .error ParseError.MissingFormatChunk) ∧
    (∀ c, find_chunk_by_type f ChunkType.Format = some c →
       (c.data.length < 8 →
          get_sample_rate f = .error (ParseError.InvalidFormatChunk c.data.length)) ∧
       (8 ≤ c.data.length →
          get_sample_rate f = .ok (u32le (subBytes c.data 4 4)))) := by
  refine ⟨fun h => ?_, fun c hc => ⟨fun hlt => ?_, fun hge => ?_⟩⟩
  · simp [get_sample_rate, h]
  · simp [get_sample_rate, hc, hlt]
  · simp [get_sample_rate, hc, Nat.not_lt.mpr hge]

/-- C8 witness: on a concrete file whose format chunk payload is
`[1, 0, 2, 0, 68, 172, 0, 0]`, the sample rate is 68 + 256 · 172 = 44100,
taken from bytes 4..8. -/
theorem get_sample_rate_spec_witness :
    find_chunk_by_type exF1 ChunkType.Format = some fmtChunk44100 ∧
    8 ≤ fmtChunk44100.data.length ∧
    get_sample_rate exF1 = .ok (u32le (subBytes fmtChunk44100.data 4 4)) ∧
    u32le (subBytes fmtChunk44100.data 4 4) = 44100 :=
  ⟨by decide, by decide,
   ((get_sample_rate_spec exF1).2 fmtChunk44100 (by decide)).2 (by decide),
   by decide⟩

/-- Case analysis of a successful `parse_markers` run: the sample rate and
sampler data were obtained, and either the cue points were absent (reason
forced to `NoCuePoints`, no markers) or present (markers matched, reason
`NoSamplerData` exactly when the sampler chunk was absent). -/
theorem parse_markers_ok_cases (dec : SamplerDecoder) (p : String) (f : RiffFile)
    (wd : WavData) (hok : parse_markers dec p f = .ok wd) :
    ∃ sr, get_sample_rate f = .ok sr ∧
    ∃ sd, parse_sampler_data dec f = .ok sd ∧
    wd.path = p ∧ wd.sample_rate = sr ∧
    ((parse_cue_points f = .ok none ∧
      wd.reason = some Reason.NoCuePoints ∧
      wd.reason_text = Reason.get_documentation Reason.NoCuePoints ∧
      wd.markers = []) ∨
     (∃ cm, parse_cue_points f = .ok (some cm) ∧
      wd.markers = match_markers (parse_labels f) sd cm sr ∧
      ((sd = none ∧ wd.reason = some Reason.NoSamplerData ∧
        wd.reason_text = Reason.get_documentation Reason.NoSamplerData) ∨
       ((∃ loops, sd = some loops) ∧ wd.reason = none ∧ wd.reason_text = none)))) := by
  unfold parse_markers at hok
  cases hsr : get_sample_rate f with
  | error e => rw [hsr] at hok; cases hok
  | ok sr =>
    rw [hsr] at hok
    cases hsd : parse_sampler_data dec f with
    | error e => rw [hsd] at hok; cases hok
    | ok sd =>
      rw [hsd] at hok
      refine ⟨sr, rfl, sd, rfl, ?_⟩
      cases hcp : parse_cue_points f with
      | error e => rw [hcp] at hok; cases hok
      | ok ocm =>
        rw [hcp] at hok
        cases ocm with
        | none =>
          injection hok with hwd
          subst hwd
          cases sd with
          | none =>
            exact ⟨rfl, rfl, Or.inl ⟨rfl, rfl, rfl, rfl⟩⟩
          | some loops =>
            exact ⟨rfl, rfl, Or.inl ⟨rfl, rfl, rfl, rfl⟩⟩
        | some cm =>
          injection hok with hwd
          subst hwd
          cases sd with
          | none =>
            exact ⟨rfl, rfl, Or.inr ⟨cm, rfl, rfl, Or.inl ⟨rfl, rfl, rfl⟩⟩⟩
          | some loops =>
            exact ⟨rfl, rfl, Or.inr ⟨cm, rfl, rfl, Or.inr ⟨⟨loops, rfl⟩, rfl, rfl⟩⟩⟩

/-- C9: every successful `parse_markers` result carries a reason that is
`none`, `NoSamplerData` or `NoCuePoints` — the declared variants `NoLabels`
and `NoMarkersMatched` are never produced — and `reason_text` is the fixed
documentation string of the reason variant, present exactly when a reason
is present. -/
theorem parse_markers_reason_invariant (dec : SamplerDecoder) (p : String)
    (f : RiffFile) (wd : WavData) (hok : parse_markers dec p f = .ok wd) :
    (wd.reason = none ∨ wd.reason = some Reason.NoSamplerData ∨
       wd.reason = some Reason.NoCuePoints) ∧
    wd.reason_text = wd.reason.bind Reason.get_documentation ∧
    (wd.reason_text.isSome ↔ wd.reason.isSome) := by
  obtain ⟨sr, _, sd, _, _, _, hcases⟩ := parse_markers_ok_cases dec p f wd hok
  rcases hcases with ⟨_, hr, ht, _⟩ | ⟨cm, _, _, ⟨_, hr, ht⟩ | ⟨_, hr, ht⟩⟩
  · rw [hr, ht]; exact ⟨Or.inr (Or.inr rfl), rfl, by simp [Reason.get_documentation]⟩
  · rw [hr, ht]; exact ⟨Or.inr (Or.inl rfl), rfl, by simp [Reason.get_documentation]⟩
  · rw [hr, ht]; exact ⟨Or.inl rfl, rfl, by simp⟩

/-- C9 witness: the reason invariant instantiated on the concrete file
`exF1`. -/
theorem parse_markers_reason_invariant_witness :
    (exWd1.reason = none ∨ exWd1.reason = some Reason.NoSamplerData ∨
       exWd1.reason = some Reason.NoCuePoints) ∧
    exWd1.reason_text = exWd1.reason.bind Reason.get_documentation ∧
    (exWd1.reason_text.isSome ↔ exWd1.reason.isSome) :=
  parse_markers_reason_invariant trivialDecoder "" exF1 exWd1 rfl

/-- C10: a cue chunk that is present but whose payload is shorter than 4
bytes is treated exactly like an absent cue chunk: `parse_cue_points`
returns `Ok(None)` rather than an error, and a successful
`parse_markers_from_file` run then reports reason `NoCuePoints` with zero
markers. -/
theorem parse_markers_short_cue (dec : SamplerDecoder) (p : String) (f : RiffFile)
    (c : RiffChunk) (wd : WavData)
    (hfind : find_chunk_by_type f ChunkType.Cue = some c)
    (hshort : c.data.length < 4)
    (hok : parse_markers dec p f = .ok wd) :
    parse_cue_points f = .ok none ∧
    wd.reason = some Reason.NoCuePoints ∧
    wd.markers = [] := by
  have hcp : parse_cue_points f = .ok none := by
    unfold parse_cue_points
    rw [hfind]
    simp [hshort]
  obtain ⟨sr, _, sd, _, _, _, hcases⟩ := parse_markers_ok_cases dec p f wd hok
  rcases hcases with ⟨_, hr, _, hm⟩ | ⟨cm, hcm, _⟩
  · exact ⟨hcp, hr, hm⟩
  · rw [hcp] at hcm
    injection hcm with h
    exact Option.noConfusion h

/-- C10 witness: the short-cue behaviour instantiated on the concrete file
`exF3` (cue payload of 2 bytes). -/
theorem parse_markers_short_cue_witness :
    parse_cue_points exF3 = .ok none ∧
    exWd3.reason = some Reason.NoCuePoints ∧
    exWd3.markers = [] :=
  parse_markers_short_cue trivialDecoder "" exF3 cueChunkShort exWd3 rfl
    (by decide) rfl

/-- C1 counterexample: on `exF1` (valid format chunk, cue and label chunks,
sampler chunk absent) the result carries reason `NoSamplerData` but one
marker, not zero — processing was not short-circuited; and on `exF2`
(sampler and cue both absent) the later missing-cue condition replaces the
reason with `NoCuePoints`. -/
theorem parse_markers_no_sampler_counterexample :
    (parse_markers trivialDecoder "" exF1).map (fun wd => (wd.reason, wd.markers.length))
      = .ok (some Reason.NoSamplerData, 1) ∧
    (parse_markers trivialDecoder "" exF2).map (fun wd => (wd.reason, wd.markers.length))
      = .ok (some Reason.NoCuePoints, 0) :=
  ⟨rfl, rfl⟩

/-- C1 amended: when the sampler chunk is absent from a file that otherwise
parses successfully, the reason `NoSamplerData` is recorded but processing
continues: if the cue chunk is also absent (or too short) the reason is
replaced by `NoCuePoints` with zero markers, and otherwise the reason stays
`NoSamplerData` while markers are still matched from the labels and cue
points (with no end offsets), so the marker list need not be empty. -/
theorem parse_markers_no_sampler_amended (dec : SamplerDecoder) (p : String)
    (f : RiffFile) (wd : WavData)
    (hs : find_chunk_by_type f ChunkType.Sampler = none)
    (hok : parse_markers dec p f = .ok wd) :
    (parse_cue_points f = .ok none →
       wd.reason = some Reason.NoCuePoints ∧ wd.markers = []) ∧
    (∀ cm, parse_cue_points f = .ok (some cm) →
       wd.reason = some Reason.NoSamplerData ∧
       wd.markers = match_markers (parse_labels f) none cm wd.sample_rate) := by
  have hsd : parse_sampler_data dec f = .ok none := by
    unfold parse_sampler_data
    rw [hs]
  obtain ⟨sr, _, sd, hsd', _, hrate, hcases⟩ := parse_markers_ok_cases dec p f wd hok
  rw [hsd] at hsd'
  injection hsd' with hsdn
  subst hsdn
  rcases hcases with ⟨hcp, hr, _, hm⟩ | ⟨cm, hcm, hmk, hinner⟩
  · refine ⟨fun _ => ⟨hr, hm⟩, fun cm hcm => ?_⟩
    rw [hcp] at hcm
    injection hcm with h
    exact Option.noConfusion h
  · refine ⟨fun h0 => ?_, fun cm' hcm' => ?_⟩
    · rw [h0] at hcm
      injection hcm with h
      exact Option.noConfusion h
    · rw [hcm] at hcm'
      injection hcm' with h
      injection h with h
      subst h
      rcases hinner with ⟨_, hr, _⟩ | ⟨⟨loops, hl⟩, _, _⟩
      · exact ⟨hr, by rw [hmk, hrate]⟩
      · exact Option.noConfusion hl

/-- C1 witness: the amended behaviour instantiated on `exF1` — reason
`NoSamplerData` and the markers matched from labels and cue points. -/
theorem parse_markers_no_sampler_amended_witness :
    exWd1.reason = some Reason.NoSamplerData ∧
    exWd1.markers
      = match_markers (parse_labels exF1) none [(1, 44100)] exWd1.sample_rate :=
  (parse_markers_no_sampler_amended trivialDecoder "" exF1 exWd1 rfl rfl).2
    [(1, 44100)] rfl

theorem maskList_header (c : RiffChunk) : (maskList c).header = c.header := by
  unfold maskList
  split <;> rfl

theorem filter_label_eq_of_maskList_eq (l1 l2 : List RiffChunk)
    (h : l1.map maskList = l2.map maskList) :
    l1.filter (fun c => c.header == ChunkType.Label)
      = l2.filter (fun c => c.header == ChunkType.Label) := by
  induction l1 generalizing l2 with
  | nil =>
    cases l2 with
    | nil => rfl
    | cons b t2 => simp at h
  | cons a t1 ih =>
    cases l2 with
    | nil => simp at h
    | cons b t2 =>
      simp only [List.map_cons, List.cons.injEq] at h
      obtain ⟨hab, ht⟩ := h
      have hh : a.header = b.header := by
        rw [← maskList_header a, ← maskList_header b, hab]
      by_cases hl : a.header = ChunkType.Label
      · have ha : maskList a = a := by simp [maskList, hl]
        have hb : maskList b = b := by simp [maskList, ← hh, hl]
        have hab' : a = b := by rw [← ha, hab, hb]
        subst hab'
        simp only [List.filter_cons]
        rw [ih t2 ht]
      · have h1 : (a.header == ChunkType.Label) = false := beq_eq_false_iff_ne.mpr hl
        have h2 : (b.header == ChunkType.Label) = false :=
          beq_eq_false_iff_ne.mpr (by rw [← hh]; exact hl)
        simp only [List.filter_cons, h1, h2, Bool.false_eq_true, if_false]
        exact ih t2 ht

/-- C4: if at least one chunk is tagged as a standalone label chunk
(whatever its payload), `parse_labels` never consults the LIST chunk — its
result is unchanged under arbitrary replacement of every LIST chunk payload
— and list-style labels contribute exactly when zero standalone label
chunks exist, in which case the result is precisely the LIST-chunk decoding. -/
theorem parse_labels_standalone_precedence (f g : RiffFile) :
    ((∃ c ∈ f.chunks, c.header = ChunkType.Label) →
       f.chunks.map maskList = g.chunks.map maskList →
       parse_labels f = parse_labels g) ∧
    ((∀ c ∈ f.chunks, c.header ≠ ChunkType.Label) →
       parse_labels f
         = match find_chunk_by_type f ChunkType.List with
           | some list_chunk => parse_list_chunk_for_labels list_chunk
           | none => []) := by
  constructor
  · intro hex hsame
    have hfilter := filter_label_eq_of_maskList_eq f.chunks g.chunks hsame
    have hne : f.chunks.filter (fun c => c.header == ChunkType.Label) ≠ [] := by
      obtain ⟨c, hc, hh⟩ := hex
      intro h0
      have hmem : c ∈ f.chunks.filter (fun c => c.header == ChunkType.Label) :=
        List.mem_filter.mpr ⟨hc, by simp [hh]⟩
      rw [h0] at hmem
      cases hmem
    have hne2 : g.chunks.filter (fun c => c.header == ChunkType.Label) ≠ [] := by
      rw [← hfilter]; exact hne
    unfold parse_labels
    rw [hfilter]
    obtain ⟨c, hc⟩ := List.exists_mem_of_ne_nil _ hne2
    have hcg := List.mem_filter.mp hc
    have hnall : ¬ ∀ a ∈ g.chunks, ¬ a.header = ChunkType.Label :=
      fun hall => hall c hcg.1 (by simpa using hcg.2)
    simp [hnall]
  · intro hall
    have h0 : f.chunks.filter (fun c => c.header == ChunkType.Label) = [] := by
      rw [List.filter_eq_nil_iff]
      intro c hc
      simp [hall c hc]
    unfold parse_labels
    simp [h0]

/-- C4 witness: with a standalone label chunk present (identifier 1,
unrelated to the list-style label for identifier 9), the parse result is
independent of the entire LIST payload, and equals the standalone decoding. -/
theorem parse_labels_standalone_precedence_witness :
    parse_labels ⟨[lablChunk1, listChunkA]⟩ = parse_labels ⟨[lablChunk1, listChunkEmpty]⟩ ∧
    parse_labels ⟨[lablChunk1, listChunkA]⟩ = [⟨1, [67, 104, 111, 114, 117, 115]⟩] :=
  ⟨(parse_labels_standalone_precedence ⟨[lablChunk1, listChunkA]⟩
      ⟨[lablChunk1, listChunkEmpty]⟩).1 (by decide) (by decide),
   by decide⟩

theorem parse_cue_points_eq_records (f : RiffFile) (c : RiffChunk)
    (hfind : find_chunk_by_type f ChunkType.Cue = some c)
    (hlen : 4 ≤ c.data.length) :
    parse_cue_points f = .ok (some (hmFromList (cueRecords c))) := by
  unfold parse_cue_points
  rw [hfind]
  dsimp only
  rw [if_neg (Nat.not_lt.mpr hlen)]
  rw [foldl_if_insert (List.range (u32le (subBytes c.data 0 4))) []
        (fun i => 4 + i * 24 + 24 ≤ c.data.length)
        (fun i => u32le (subBytes c.data (4 + i * 24) 4))
        (fun i => u32le (subBytes c.data (4 + i * 24 + 20) 4))]
  rfl

/-- C5: for a present cue chunk with a payload of at least 4 bytes,
`parse_cue_points` succeeds (never fails) with a map whose lookup at any
key is the sample offset (record offset 20) of the last in-range record
carrying that identifier (record offset 0) — so duplicates collapse to the
last occurrence and out-of-range records are silently omitted — whose size
is the number of in-range records when the identifiers are distinct, and
when the payload holds all `N` declared records that number is exactly `N`. -/
theorem parse_cue_points_spec (f : RiffFile) (c : RiffChunk)
    (hfind : find_chunk_by_type f ChunkType.Cue = some c)
    (hlen : 4 ≤ c.data.length) :
    ∃ m, parse_cue_points f = .ok (some m) ∧
      (∀ k, m.lookup k = ((cueRecords c).reverse.find? (fun r => r.1 == k)).map Prod.snd) ∧
      (((cueRecords c).map Prod.fst).Nodup → m.length = (cueRecords c).length) ∧
      (4 + 24 * u32le (subBytes c.data 0 4) ≤ c.data.length →
        (cueRecords c).length = u32le (subBytes c.data 0 4)) := by
  refine ⟨hmFromList (cueRecords c), parse_cue_points_eq_records f c hfind hlen,
    fun k => hmFromList_lookup _ k, hmFromList_length_of_nodup _, fun hfull => ?_⟩
  unfold cueRecords
  rw [List.filter_eq_self.mpr ?_]
  · rw [List.length_map, List.length_range]
  · intro i hi
    have hi' := List.mem_range.mp hi
    simp only [decide_eq_true_eq]
    omega

/-- C5 witness: instantiated on `exF1`, whose cue chunk declares one record
(identifier 1, sample offset 44100) fully contained in the payload. -/
theorem parse_cue_points_spec_witness :
    (∃ m, parse_cue_points exF1 = .ok (some m) ∧
      (∀ k, m.lookup k
          = ((cueRecords cueChunk1).reverse.find? (fun r => r.1 == k)).map Prod.snd) ∧
      (((cueRecords cueChunk1).map Prod.fst).Nodup →
        m.length = (cueRecords cueChunk1).length) ∧
      (4 + 24 * u32le (subBytes cueChunk1.data 0 4) ≤ cueChunk1.data.length →
        (cueRecords cueChunk1).length = u32le (subBytes cueChunk1.data 0 4))) ∧
    cueRecords cueChunk1 = [(1, 44100)] :=
  ⟨parse_cue_points_spec exF1 cueChunk1 rfl (by decide), by decide⟩

theorem find?_isSome_eq_any {α : Type} (l : List α) (p : α → Bool) :
    (l.find? p).isSome = l.any p := by
  induction l with
  | nil => rfl
  | cons a t ih =>
    by_cases h : p a
    · simp [List.find?, List.any_cons, h]
    · simp only [Bool.not_eq_true] at h
      simp [List.find?, List.any_cons, h, ih]

theorem hmFromList_map_lookup {α β : Type} (xs : List α) (key : α → Nat)
    (val : α → β) (j : Nat) :
    (hmFromList (xs.map (fun x => (key x, val x)))).lookup j
      = (xs.reverse.find? (fun x => key x == j)).map val := by
  rw [hmFromList_lookup, ← List.map_reverse, List.find?_map, Option.map_map]
  rfl

/-- C3: `match_markers` emits exactly one marker per distinct identifier in
the label mapping (a label with no cue record is still emitted; identifiers
present only in the cue or sampler tables are not emitted), and every
emitted marker is built by `Marker::new` from the last label name for its
identifier, the cue-point offset for that identifier (0 when absent), and
the last sampler-loop end for that identifier (absent when no loop carries
it). -/
theorem match_markers_spec (labels : List Label) (loops : List SampleLoop)
    (cue : List (Nat × Nat)) (rate : Nat) (i : Nat) :
    ((match_markers labels (some loops) cue rate).countP (fun m => m.id == i)
        = if labels.any (fun lb => lb.cue_id == i) then 1 else 0) ∧
    (∀ m ∈ match_markers labels (some loops) cue rate,
      (labels.reverse.find? (fun lb => lb.cue_id == m.id)).map Label.name = some m.name ∧
      m = Marker.new m.id m.name ((cue.lookup m.id).getD 0)
            ((loops.reverse.find? (fun sl => sl.id == m.id)).map SampleLoop.end_) rate) := by
  unfold match_markers match_markers_seq
  constructor
  · rw [List.Perm.countP_congr (List.perm_insertionSort markerLE _) (fun x _ => rfl)]
    rw [List.countP_map]
    have hcomp :
        ((fun m => m.id == i) ∘ fun p =>
          Marker.new p.1 p.2 ((cue.lookup p.1).getD 0)
            ((hmFromList (((some loops).getD []).map (fun sl => (sl.id, sl.end_)))).lookup p.1)
            rate)
          = fun p : Nat × Bytes => p.1 == i := by
      funext p
      simp [Function.comp, Marker.new_id]
    rw [hcomp]
    rw [countP_keys _ (hmFromList_keys_nodup _) i]
    have hsome :
        ((hmFromList (labels.map (fun label => (label.cue_id, label.name)))).lookup i).isSome
          = labels.any (fun lb => lb.cue_id == i) := by
      rw [hmFromList_map_lookup labels (fun lb => lb.cue_id) (fun lb => lb.name) i]
      rw [Option.isSome_map', find?_isSome_eq_any, List.any_reverse]
    rw [hsome]
  · intro m hm
    have hm' : m ∈ (hmFromList (labels.map (fun label => (label.cue_id, label.name)))).map
        (fun p => Marker.new p.1 p.2 ((cue.lookup p.1).getD 0)
          ((hmFromList (((some loops).getD []).map (fun sl => (sl.id, sl.end_)))).lookup p.1)
          rate) :=
      ((List.perm_insertionSort markerLE _).mem_iff).mp hm
    obtain ⟨p, hp, hfp⟩ := List.mem_map.mp hm'
    subst hfp
    have hlook :
        (hmFromList (labels.map (fun label => (label.cue_id, label.name)))).lookup p.1
          = some p.2 :=
      lookup_of_mem_nodup _ p (hmFromList_keys_nodup _) hp
    constructor
    · rw [Marker.new_id, Marker.new_name]
      exact (hmFromList_map_lookup labels (fun lb => lb.cue_id) (fun lb => lb.name)
        p.1).symm.trans hlook
    · rw [Marker.new_id, Marker.new_name]
      exact congrArg
        (fun o => Marker.new p.1 p.2 ((cue.lookup p.1).getD 0) o rate)
        (hmFromList_map_lookup loops (fun sl => sl.id) (fun sl => sl.end_) p.1)

/-- C3 witness: one label for identifier 7 with no cue record and no sampler
loop — exactly one marker is emitted, with default start 0 and no end. -/
theorem match_markers_spec_witness :
    ((match_markers [⟨7, [65]⟩] (some []) [] 44100).countP (fun m => m.id == 7)
        = if [Label.mk 7 [65]].any (fun lb => lb.cue_id == 7) then 1 else 0) ∧
    (∀ m ∈ match_markers [⟨7, [65]⟩] (some []) [] 44100,
      ([Label.mk 7 [65]].reverse.find? (fun lb => lb.cue_id == m.id)).map Label.name
          = some m.name ∧
      m = Marker.new m.id m.name ((([] : List (Nat × Nat)).lookup m.id).getD 0)
            ((([] : List SampleLoop).reverse.find? (fun sl => sl.id == m.id)).map
              SampleLoop.end_) 44100) :=
  match_markers_spec [⟨7, [65]⟩] [] [] 44100 7

theorem sorted_eq_of_perm_of_distinct_starts (l1 l2 : List Marker)
    (hp : l1.Perm l2)
    (hne : l1.Pairwise (fun a b => a.start ≠ b.start))
    (hs1 : l1.Pairwise markerLE) (hs2 : l2.Pairwise markerLE) : l1 = l2 := by
  have hne2 : l2.Pairwise (fun a b => a.start ≠ b.start) :=
    (hp.pairwise_iff (fun h => Ne.symm h)).mp hne
  have hlt1 : l1.Pairwise (fun a b => a.start < b.start) :=
    (hs1.and hne).imp (fun h => Nat.lt_of_le_of_ne h.1 h.2)
  have hlt2 : l2.Pairwise (fun a b => a.start < b.start) :=
    (hs2.and hne2).imp (fun h => Nat.lt_of_le_of_ne h.1 h.2)
  haveI : IsAntisymm Marker (fun a b => a.start < b.start) :=
    ⟨fun _ _ h1 h2 => absurd h2 (Nat.lt_asymm h1)⟩
  exact List.eq_of_perm_of_sorted hp hlt1 hlt2

/-- C6 counterexample: two iteration orders of the same label map (the two
sequences are permutations of one another, over distinct keys), with both
markers landing at the same start offset 0, produce different ordered
marker lists — the stable sort preserves the iteration order on ties, so
the output is not independent of the unspecified `HashMap` iteration
order. -/
theorem match_markers_seq_order_counterexample :
    List.Perm [(1, ([] : Bytes)), (2, [])] [(2, []), (1, [])] ∧
    match_markers_seq [(1, []), (2, [])] [] [] 1
      ≠ match_markers_seq [(2, []), (1, [])] [] [] 1 :=
  ⟨by decide, by decide⟩

/-- C6 amended: reconciliation is deterministic in the label-map contents —
independent of the iteration order of the label map — provided the start
offsets assigned to the (distinct) label identifiers are pairwise distinct;
with equal start offsets the relative order of the tied markers follows the
unspecified iteration order. -/
theorem match_markers_seq_deterministic (seq1 seq2 : List (Nat × Bytes))
    (sampler_map cue_points : List (Nat × Nat)) (sample_rate : Nat)
    (hperm : seq1.Perm seq2)
    (hstart : seq1.Pairwise (fun p q =>
      (cue_points.lookup p.1).getD 0 ≠ (cue_points.lookup q.1).getD 0)) :
    match_markers_seq seq1 sampler_map cue_points sample_rate
      = match_markers_seq seq2 sampler_map cue_points sample_rate := by
  unfold match_markers_seq
  apply sorted_eq_of_perm_of_distinct_starts
  · exact ((List.perm_insertionSort markerLE _).trans (hperm.map _)).trans
      (List.perm_insertionSort markerLE _).symm
  · apply ((List.perm_insertionSort markerLE _).pairwise_iff
      (fun h => Ne.symm h)).mpr
    rw [List.pairwise_map]
    apply hstart.imp
    intro p q h
    rw [Marker.new_start, Marker.new_start]
    exact h
  · exact List.sorted_insertionSort markerLE _
  · exact List.sorted_insertionSort markerLE _

/-- C6 witness: the two iteration orders of the label map for identifiers 1
and 2, with distinct starts 5 and 9, produce the identical sorted list. -/
theorem match_markers_seq_deterministic_witness :
    match_markers_seq [(1, []), (2, [])] [] [(1, 5), (2, 9)] 1
      = match_markers_seq [(2, []), (1, [])] [] [(1, 5), (2, 9)] 1 :=
  match_markers_seq_deterministic [(1, []), (2, [])] [(2, []), (1, [])]
    [] [(1, 5), (2, 9)] 1 (by decide) (by decide)

theorem emitStrip_eq_chunkOnDisk (c : RiffChunk)
    (heven : c.data.length % 2 = 0)
    (hdata : c.header = ChunkType.Data → c.data = []) :
    emitStrip c = chunkOnDisk c := by
  unfold emitStrip chunkOnDisk
  by_cases h : c.header = ChunkType.Data
  · have hd := hdata h
    simp [h, hd, ChunkType.to_tag]
  · have hb : (c.header == ChunkType.Data) = false := beq_eq_false_iff_ne.mpr h
    simp [hb, heven]

/-- C7 counterexample: a container whose data chunk is already empty but
whose advisory RIFF size field is 999 — the walker accepts it (the declared
total size is advisory), yet the rewriter recomputes the size field, so the
rewritten container is not byte-identical to the original. -/
theorem strip_roundtrip_counterexample :
    parseRiff (containerBytes 999 [⟨ChunkType.Data, []⟩])
      = .ok [⟨ChunkType.Data, []⟩] ∧
    strip_audio_data [⟨ChunkType.Data, []⟩]
      ≠ containerBytes 999 [⟨ChunkType.Data, []⟩] :=
  ⟨rfl, by decide⟩

/-- C7 amended: the rewriter emits the RIFF/WAVE header followed by every
chunk in original order — the data chunk with declared size zero and no
payload bytes, every other chunk with its tag, original declared size and
payload — and the leading RIFF size field equals the total emitted length
minus 8; the rewritten container is byte-identical to the original
serialized container when, additionally, the original RIFF size field
already equals the total length minus 8 and every chunk payload has even
length (so the original carries no pad bytes), with the data chunk already
empty. -/
theorem strip_audio_data_spec (chunks : List RiffChunk) :
    strip_audio_data chunks
      = riffTag ++ le32 ((strip_audio_data chunks).length - 8) ++ waveTag
          ++ (chunks.map emitStrip).flatten ∧
    (strip_audio_data chunks).length = 12 + ((chunks.map emitStrip).flatten).length ∧
    ((∀ c ∈ chunks, c.data.length % 2 = 0) →
     (∀ c ∈ chunks, c.header = ChunkType.Data → c.data = []) →
       strip_audio_data chunks
         = containerBytes ((strip_audio_data chunks).length - 8) chunks) := by
  have hout :
      (riffTag ++ le32 0 ++ waveTag ++ (chunks.map emitStrip).flatten).length
        = 12 + ((chunks.map emitStrip).flatten).length := by
    simp [riffTag, waveTag, le32]
    omega
  have hstrip :
      strip_audio_data chunks
        = riffTag
            ++ le32 ((riffTag ++ le32 0 ++ waveTag ++ (chunks.map emitStrip).flatten).length - 8)
            ++ (waveTag ++ (chunks.map emitStrip).flatten) := rfl
  have hlen :
      (strip_audio_data chunks).length
        = (riffTag ++ le32 0 ++ waveTag ++ (chunks.map emitStrip).flatten).length := by
    rw [hstrip]
    simp [riffTag, waveTag, le32]
  refine ⟨?_, hlen.trans hout, fun heven hdata => ?_⟩
  · rw [hlen, hstrip]
    simp [List.append_assoc]
  · have hmap : chunks.map emitStrip = chunks.map chunkOnDisk :=
      List.map_congr_left (fun c hc => emitStrip_eq_chunkOnDisk c (heven c hc) (hdata c hc))
    rw [hlen, hstrip]
    unfold containerBytes
    rw [← hmap]
    simp [List.append_assoc]

/-- C7 witness: the amended round trip instantiated on a container with an
(even-length) format chunk and an empty data chunk. -/
theorem strip_audio_data_spec_witness :
    (∀ c ∈ [fmtChunk44100, RiffChunk.mk ChunkType.Data []], c.data.length % 2 = 0) ∧
    strip_audio_data [fmtChunk44100, RiffChunk.mk ChunkType.Data []]
      = containerBytes
          ((strip_audio_data [fmtChunk44100, RiffChunk.mk ChunkType.Data []]).length - 8)
          [fmtChunk44100, RiffChunk.mk ChunkType.Data []] :=
  ⟨by decide,
   (strip_audio_data_spec [fmtChunk44100, RiffChunk.mk ChunkType.Data []]).2.2
     (by decide) (by decide)⟩
